import Mathlib

/-!
Verification of the zlaunch merge/rank/index engine.

Strings are modelled as lists of characters (`Str`); the collaborator
subsystems that live outside the core (the fasteval expression parser, the
skim fuzzy matcher, the search-trigger parser, the provider list and the
AI-availability probe) are abstracted as components of an `Env` record, so
all theorems about the composer hold for every collaborator behaviour.
-/

namespace ZLaunch

/-- Strings are modelled as lists of characters. -/
abbrev Str := List Char

/-- Shorthand turning a Lean string literal into the `Str` model. -/
def sl (s : String) : Str := s.toList

/-! ## Expression detector (src/calculator/detection.rs) -/

/-- Known mathematical function names supported by fasteval
(`MATH_FUNCTIONS` in detection.rs). -/
def mathFunctions : List Str :=
  [sl "sin", sl "cos", sl "tan", sl "asin", sl "acos", sl "atan",
   sl "sinh", sl "cosh", sl "tanh", sl "asinh", sl "acosh", sl "atanh",
   sl "sqrt", sl "abs", sl "ceil", sl "floor", sl "round", sl "log",
   sl "ln", sl "exp", sl "min", sl "max", sl "pi", sl "e"]

/-- Characters accepted by the `MATH_SAFE_CHARS` character class:
digits, whitespace, `.`, `,`, the operators, parentheses, letters, `_`. -/
def isMathSafeChar (c : Char) : Bool :=
  c.isDigit || c.isWhitespace || c = '.' || c = ',' || c = '+' || c = '-' ||
  c = '*' || c = '/' || c = '%' || c = '^' || c = '(' || c = ')' ||
  c.isAlpha || c = '_'

/-- Model of Rust `str::trim`: drop whitespace from both ends. -/
def trimStr (s : Str) : Str :=
  ((s.dropWhile Char.isWhitespace).reverse.dropWhile Char.isWhitespace).reverse

/-- Remove one optional leading minus sign (the minus-stripping step with
`unwrap_or` in `is_plain_number`). -/
def stripLeadingMinus (s : Str) : Str :=
  if s.head? = some '-' then s.tail else s

/-- Characters a plain number may consist of: digits, dots and commas. -/
def isPlainNumChar (c : Char) : Bool :=
  c.isDigit || c = '.' || c = ','

/-- Model of `is_plain_number`: after removing all whitespace and one
optional leading minus, the rest is non-empty and made of digits/dots/commas. -/
def is_plain_number (input : Str) : Bool :=
  let cleaned := input.filter (fun c => !c.isWhitespace)
  let toCheck := stripLeadingMinus cleaned
  !toCheck.isEmpty && toCheck.all isPlainNumChar

/-- Is the character one of the always-binary operators `+ * / ^ %`. -/
def isAlwaysBinaryOp (c : Char) : Bool :=
  c = '+' || c = '*' || c = '/' || c = '^' || c = '%'

/-- Does the previous non-whitespace character make a following `-` a binary
minus: a digit, a closing parenthesis, or a letter. -/
def isBinaryPrevChar : Option Char → Bool
  | some p => p.isDigit || p = ')' || p.isAlpha
  | none => false

/-- Scan for a binary minus exactly as the loop in `has_operator` does:
walk the characters keeping the last non-whitespace character seen, and
report a `-` whose predecessor is a digit, `)` or a letter. -/
def minusScan (prev : Option Char) : Str → Bool
  | [] => false
  | c :: rest =>
    (c = '-' && isBinaryPrevChar prev) ||
      minusScan (if c.isWhitespace then prev else some c) rest

/-- Model of `has_operator`: one of `+ * / ^ %` occurs, or a binary minus. -/
def has_operator (input : Str) : Bool :=
  input.any isAlwaysBinaryOp || minusScan none input

/-- Does `hay` start with `needle` (used to model Rust `str::contains`). -/
def listStartsWith : Str → Str → Bool
  | [], _ => true
  | _ :: _, [] => false
  | a :: as, b :: bs => a = b && listStartsWith as bs

/-- Model of Rust `str::contains` for a literal pattern: some position of
`hay` starts with `needle`. -/
def containsSeq (needle : Str) : Str → Bool
  | [] => needle.isEmpty
  | c :: rest => listStartsWith needle (c :: rest) || containsSeq needle rest

/-- Model of `has_function`: the lower-cased input contains a known function
name immediately followed by `(`, or followed by a single space and `(`. -/
def has_function (input : Str) : Bool :=
  let lower := input.map Char.toLower
  mathFunctions.any fun f =>
    containsSeq (f ++ ['(']) lower || containsSeq (f ++ [' ', '(']) lower

/-- Does the regex `\([^)]+\)` match starting right after an opening
parenthesis: the next character is not `)` and a `)` occurs later. -/
def parenGroupHere : Str → Bool
  | [] => false
  | c :: rest => !(c = ')') && rest.contains ')'

/-- Model of the `HAS_PARENS` regex search (`\([^)]+\)` anywhere). -/
def hasParensMatch : Str → Bool
  | [] => false
  | c :: rest => (c = '(' && parenGroupHere rest) || hasParensMatch rest

/-- Model of `looks_like_expression` (detection.rs): trimmed length at least
2, only math-safe characters, not a plain number, and at least one operator,
function call or non-empty parenthesized group. -/
def looks_like_expression (input : Str) : Bool :=
  let trimmed := trimStr input
  if trimmed.length < 2 then false
  else if !trimmed.all isMathSafeChar then false
  else if is_plain_number trimmed then false
  else has_operator trimmed || has_function trimmed || hasParensMatch trimmed

/-! ### Specification-side predicates for C3, written from the claim text -/

/-- Last non-whitespace character of a list, tracked left to right starting
from `prev` (what "preceded, skipping whitespace" refers to). -/
def trackNonWs (prev : Option Char) (l : Str) : Option Char :=
  l.foldl (fun acc c => if c.isWhitespace then acc else some c) prev

/-- Last non-whitespace character of a list. -/
def lastNonWs (l : Str) : Option Char := trackNonWs none l

/-- Claim wording: a binary operator among `+ * / ^ %` is present, or some
`-` is preceded (skipping whitespace) by a digit, `)` or a letter. -/
def SpecHasBinaryOp (s : Str) : Prop :=
  (∃ c ∈ s, isAlwaysBinaryOp c = true) ∨
  ∃ l r, s = l ++ '-' :: r ∧ isBinaryPrevChar (lastNonWs l) = true

/-- Claim wording: the lower-cased text contains a known function name
immediately followed by `(`, or by a single space and then `(`. -/
def SpecHasFunctionCall (s : Str) : Prop :=
  ∃ f ∈ mathFunctions,
    (∃ l r, s.map Char.toLower = l ++ (f ++ ['(']) ++ r) ∨
    (∃ l r, s.map Char.toLower = l ++ (f ++ [' ', '(']) ++ r)

/-- Claim wording: the text contains a non-empty parenthesized group. -/
def SpecHasParenGroup (s : Str) : Prop :=
  ∃ l m r, s = l ++ '(' :: (m ++ ')' :: r) ∧ m ≠ [] ∧ ')' ∉ m

/-- The C3 claim, written from its text: trimmed length at least 2, only
math-safe characters, not solely digits/dots/commas once whitespace and an
optional leading minus are stripped, and one of the three operator shapes. -/
def SpecLooksLikeExpression (q : Str) : Prop :=
  2 ≤ (trimStr q).length ∧
  (∀ c ∈ trimStr q, isMathSafeChar c = true) ∧
  ¬(stripLeadingMinus ((trimStr q).filter (fun c => !c.isWhitespace))).all
      isPlainNumChar = true ∧
  (SpecHasBinaryOp (trimStr q) ∨ SpecHasFunctionCall (trimStr q) ∨
    SpecHasParenGroup (trimStr q))

/-! ### Supporting lemmas for the detector equivalence -/

theorem listStartsWith_iff (needle : Str) :
    ∀ hay, listStartsWith needle hay = true ↔ ∃ r, hay = needle ++ r := by
  induction needle with
  | nil => intro hay; simp [listStartsWith]
  | cons a as ih =>
    intro hay
    cases hay with
    | nil => simp [listStartsWith]
    | cons b bs =>
      simp only [listStartsWith, Bool.and_eq_true, decide_eq_true_eq, ih,
        List.cons_append, List.cons.injEq]
      constructor
      · rintro ⟨hab, r, hr⟩
        exact ⟨r, hab.symm, hr⟩
      · rintro ⟨r, hab, hr⟩
        exact ⟨hab.symm, r, hr⟩

theorem containsSeq_iff (needle : Str) :
    ∀ hay, containsSeq needle hay = true ↔ ∃ l r, hay = l ++ needle ++ r := by
  intro hay
  induction hay with
  | nil =>
    simp only [containsSeq, List.isEmpty_iff]
    constructor
    · rintro rfl; exact ⟨[], [], rfl⟩
    · rintro ⟨l, r, h⟩
      rcases List.append_eq_nil.mp h.symm with ⟨h1, h2⟩
      exact (List.append_eq_nil.mp h1).2
  | cons c rest ih =>
    simp only [containsSeq, Bool.or_eq_true, ih, listStartsWith_iff]
    constructor
    · rintro (⟨r, hr⟩ | ⟨l, r, hr⟩)
      · exact ⟨[], r, by simpa using hr⟩
      · exact ⟨c :: l, r, by simp [hr]⟩
    · rintro ⟨l, r, hr⟩
      cases l with
      | nil => exact Or.inl ⟨r, by simpa using hr⟩
      | cons x l2 =>
        simp only [List.cons_append, List.cons.injEq] at hr
        exact Or.inr ⟨l2, r, hr.2⟩

theorem trackNonWs_nil (prev : Option Char) : trackNonWs prev [] = prev := rfl

theorem trackNonWs_cons (prev : Option Char) (c : Char) (l : Str) :
    trackNonWs prev (c :: l) =
      trackNonWs (if c.isWhitespace then prev else some c) l := rfl

theorem trackNonWs_eq_some (l : Str) :
    ∀ (prev : Option Char) (p : Char), trackNonWs prev l = some p →
      (p ∈ l ∧ p.isWhitespace = false) ∨ prev = some p := by
  induction l with
  | nil => intro prev p h; exact Or.inr h
  | cons c l2 ih =>
    intro prev p h
    rw [trackNonWs_cons] at h
    rcases ih _ p h with ⟨hm, hw⟩ | hp
    · exact Or.inl ⟨List.mem_cons_of_mem _ hm, hw⟩
    · by_cases hc : c.isWhitespace
      · rw [if_pos hc] at hp
        exact Or.inr hp
      · rw [if_neg hc] at hp
        cases hp
        exact Or.inl ⟨List.mem_cons_self _ _, by simpa using hc⟩

theorem minusScan_iff (s : Str) :
    ∀ prev, minusScan prev s = true ↔
      ∃ l r, s = l ++ '-' :: r ∧
        isBinaryPrevChar (trackNonWs prev l) = true := by
  induction s with
  | nil =>
    intro prev
    simp [minusScan]
  | cons c rest ih =>
    intro prev
    simp only [minusScan, Bool.or_eq_true, Bool.and_eq_true, decide_eq_true_eq, ih]
    constructor
    · rintro (⟨rfl, hb⟩ | ⟨l, r, hr, hb⟩)
      · exact ⟨[], rest, rfl, by simpa [trackNonWs_nil] using hb⟩
      · exact ⟨c :: l, r, by simp [hr], by rwa [trackNonWs_cons]⟩
    · rintro ⟨l, r, hr, hb⟩
      cases l with
      | nil =>
        simp only [List.nil_append, List.cons.injEq] at hr
        rw [trackNonWs_nil] at hb
        exact Or.inl ⟨hr.1, hb⟩
      | cons x l2 =>
        simp only [List.cons_append, List.cons.injEq] at hr
        rcases hr with ⟨rfl, hr2⟩
        rw [trackNonWs_cons] at hb
        exact Or.inr ⟨l2, r, hr2, hb⟩

theorem mem_first_split {x : Char} {l : Str} (h : x ∈ l) :
    ∃ a b, l = a ++ x :: b ∧ x ∉ a := by
  induction l with
  | nil => cases h
  | cons c t ih =>
    by_cases hc : c = x
    · subst hc
      exact ⟨[], t, rfl, by simp⟩
    · have hxt : x ∈ t := by
        rcases List.mem_cons.mp h with h1 | h1
        · exact absurd h1.symm hc
        · exact h1
      rcases ih hxt with ⟨a, b, hab, hna⟩
      refine ⟨c :: a, b, by simp [hab], ?_⟩
      simp only [List.mem_cons, not_or]
      exact ⟨fun he => hc he.symm, hna⟩

theorem parenGroupHere_iff (rest : Str) :
    parenGroupHere rest = true ↔
      ∃ m r, rest = m ++ ')' :: r ∧ m ≠ [] ∧ ')' ∉ m := by
  cases rest with
  | nil => simp [parenGroupHere]
  | cons c rest2 =>
    simp only [parenGroupHere, Bool.and_eq_true, Bool.not_eq_eq_eq_not,
      Bool.not_true, decide_eq_false_iff_not, List.elem_iff]
    constructor
    · rintro ⟨hc, hmem⟩
      rcases mem_first_split hmem with ⟨a, b, hab, hna⟩
      refine ⟨c :: a, b, by simp [hab], by simp, ?_⟩
      simp only [List.mem_cons, not_or]
      exact ⟨fun he => hc he.symm, hna⟩
    · rintro ⟨m, r, hm, hne, hnm⟩
      cases m with
      | nil => exact absurd rfl hne
      | cons d m2 =>
        simp only [List.cons_append, List.cons.injEq] at hm
        rcases hm with ⟨rfl, hm2⟩
        constructor
        · intro he
          exact hnm (by rw [he]; exact List.mem_cons_self _ _)
        · simp [hm2]

theorem hasParensMatch_iff (s : Str) :
    hasParensMatch s = true ↔ SpecHasParenGroup s := by
  induction s with
  | nil =>
    simp only [hasParensMatch, SpecHasParenGroup]
    constructor
    · intro h; cases h
    · rintro ⟨l, m, r, h, _, _⟩
      exact absurd h.symm (by simp)
  | cons c rest ih =>
    simp only [hasParensMatch, Bool.or_eq_true, Bool.and_eq_true,
      decide_eq_true_eq, ih, parenGroupHere_iff, SpecHasParenGroup]
    constructor
    · rintro (⟨rfl, m, r, hm, hne, hnm⟩ | ⟨l, m, r, hm, hne, hnm⟩)
      · exact ⟨[], m, r, by simp [hm], hne, hnm⟩
      · exact ⟨c :: l, m, r, by simp [hm], hne, hnm⟩
    · rintro ⟨l, m, r, hm, hne, hnm⟩
      cases l with
      | nil =>
        simp only [List.nil_append, List.cons.injEq] at hm
        exact Or.inl ⟨hm.1, m, r, hm.2, hne, hnm⟩
      | cons x l2 =>
        simp only [List.cons_append, List.cons.injEq] at hm
        exact Or.inr ⟨l2, m, r, hm.2, hne, hnm⟩

theorem has_operator_iff (s : Str) :
    has_operator s = true ↔ SpecHasBinaryOp s := by
  simp only [has_operator, Bool.or_eq_true, List.any_eq_true, SpecHasBinaryOp,
    minusScan_iff, lastNonWs]

theorem has_function_iff (s : Str) :
    has_function s = true ↔ SpecHasFunctionCall s := by
  simp only [has_function, List.any_eq_true, Bool.or_eq_true, containsSeq_iff,
    SpecHasFunctionCall, List.append_assoc]

theorem toLower_self_or (c : Char) :
    c.toLower = c ∨ (97 ≤ c.toLower.toNat ∧ c.toLower.toNat ≤ 122) := by
  by_cases hc : c.toNat ≥ 65 ∧ c.toNat ≤ 90
  · right
    have hrw : c.toLower = Char.ofNat (c.toNat + 32) := by
      show (if c.toNat ≥ 65 ∧ c.toNat ≤ 90 then Char.ofNat (c.toNat + 32) else c) =
        Char.ofNat (c.toNat + 32)
      exact if_pos hc
    rw [hrw]
    obtain ⟨h1, h2⟩ := hc
    set k := c.toNat with hk
    interval_cases k <;> decide
  · left
    show (if c.toNat ≥ 65 ∧ c.toNat ≤ 90 then Char.ofNat (c.toNat + 32) else c) = c
    exact if_neg hc

theorem eq_lparen_of_toLower {d : Char} (h : d.toLower = '(') : d = '(' := by
  rcases toLower_self_or d with h2 | ⟨ha, _⟩
  · rwa [h2] at h
  · rw [h] at ha
    exact absurd ha (by decide)

theorem opChar_cases {x : Char} (h : isAlwaysBinaryOp x = true) :
    x = '+' ∨ x = '*' ∨ x = '/' ∨ x = '^' ∨ x = '%' := by
  have h2 : (((x = '+' ∨ x = '*') ∨ x = '/') ∨ x = '^') ∨ x = '%' := by
    simpa [isAlwaysBinaryOp] using h
  tauto

theorem minusScan_eq_false_of_not_mem {t : Str} (prev : Option Char)
    (h : '-' ∉ t) : minusScan prev t = false := by
  by_contra hcon
  rw [Bool.not_eq_false, minusScan_iff] at hcon
  rcases hcon with ⟨l, r, he, _⟩
  exact h (by rw [he]; simp)

theorem minusScan_none_eq_false {t : Str}
    (h : ∀ p ∈ t, p.isWhitespace = false → isBinaryPrevChar (some p) = false) :
    minusScan none t = false := by
  by_contra hcon
  rw [Bool.not_eq_false, minusScan_iff] at hcon
  rcases hcon with ⟨l, r, he, hb⟩
  cases htr : trackNonWs none l with
  | none => rw [htr] at hb; exact absurd hb (by decide)
  | some p =>
    rw [htr] at hb
    rcases trackNonWs_eq_some l none p htr with ⟨hm, hw⟩ | hp
    · have hpt : p ∈ t := by rw [he]; exact List.mem_append_left _ hm
      rw [h p hpt hw] at hb
      cases hb
    · cases hp

theorem has_function_eq_false {t : Str}
    (h : ∀ d ∈ t, d.toLower ≠ '(') : has_function t = false := by
  by_contra hcon
  rw [Bool.not_eq_false, has_function] at hcon
  simp only [List.any_eq_true, Bool.or_eq_true] at hcon
  rcases hcon with ⟨f, _, hor⟩
  have hparen : '(' ∈ t.map Char.toLower := by
    rcases hor with hcs | hcs
    · rcases (containsSeq_iff _ _).mp hcs with ⟨l, r, he⟩
      rw [he]
      simp
    · rcases (containsSeq_iff _ _).mp hcs with ⟨l, r, he⟩
      rw [he]
      simp
  rcases List.mem_map.mp hparen with ⟨d, hd, hdl⟩
  exact h d hd hdl

theorem hasParensMatch_eq_false {t : Str} (h : '(' ∉ t) :
    hasParensMatch t = false := by
  by_contra hcon
  rw [Bool.not_eq_false, hasParensMatch_iff] at hcon
  rcases hcon with ⟨l, m, r, he, _, _⟩
  exact h (by rw [he]; simp)

theorem stripLeadingMinus_eq_nil {l : Str} (h : stripLeadingMinus l = []) :
    l = [] ∨ l = ['-'] := by
  unfold stripLeadingMinus at h
  split at h
  · cases l with
    | nil => exact Or.inl rfl
    | cons c t =>
      right
      simp_all
  · exact Or.inl h

theorem mem_of_mem_trimStr {c : Char} {q : Str} (h : c ∈ trimStr q) : c ∈ q := by
  unfold trimStr at h
  rw [List.mem_reverse] at h
  have h2 := (List.dropWhile_sublist _).mem h
  rw [List.mem_reverse] at h2
  exact (List.dropWhile_sublist _).mem h2

theorem detector_disj_eq_false {t : Str}
    (hop1 : ∀ x ∈ t, isAlwaysBinaryOp x = false)
    (hm : minusScan none t = false)
    (hlp : ∀ d ∈ t, d.toLower ≠ '(') :
    (has_operator t || has_function t || hasParensMatch t) = false := by
  have hnp : '(' ∉ t := by
    intro hmem
    exact hlp '(' hmem (by decide)
  have h1 : t.any isAlwaysBinaryOp = false := by
    by_contra hc
    rw [Bool.not_eq_false, List.any_eq_true] at hc
    rcases hc with ⟨x, hx, hxo⟩
    rw [hop1 x hx] at hxo
    cases hxo
  have h2 : has_operator t = false := by
    unfold has_operator
    rw [h1, hm]
    rfl
  rw [h2, has_function_eq_false hlp, hasParensMatch_eq_false hnp]
  rfl

/-- C1 of detection: the boolean disjunction agrees with the three
spec-level shapes. -/
theorem detector_disj_iff (t : Str) :
    (has_operator t || has_function t || hasParensMatch t) = true ↔
      (SpecHasBinaryOp t ∨ SpecHasFunctionCall t ∨ SpecHasParenGroup t) := by
  simp only [Bool.or_eq_true, has_operator_iff, has_function_iff,
    hasParensMatch_iff]
  tauto

/-- C3: `looks_like_expression(q)` returns true iff trimmed `q` has length at
least 2, contains only math-safe characters, is not a plain number, and
exhibits a binary operator, a function application, or a non-empty
parenthesized group; in particular every input consisting only of letters
and whitespace (hence the empty string, pure whitespace, and pure alphabetic
text) is rejected. -/
theorem looks_like_expression_correct (q : Str) :
    (looks_like_expression q = true ↔ SpecLooksLikeExpression q) ∧
    ((∀ c ∈ q, c.isAlpha = true ∨ c.isWhitespace = true) →
      looks_like_expression q = false) := by
  constructor
  · simp only [looks_like_expression, SpecLooksLikeExpression]
    split_ifs with h1 h2 h3
    · simp only [Bool.false_eq_true, false_iff, not_and]
      intro hlen
      omega
    · simp only [Bool.false_eq_true, false_iff, not_and]
      intro _ hsafe
      rw [List.all_eq_true.mpr hsafe] at h2
      simp at h2
    · simp only [Bool.false_eq_true, false_iff, not_and]
      intro _ _ hnp
      simp only [is_plain_number, Bool.and_eq_true] at h3
      exact absurd h3.2 hnp
    · by_cases he :
        stripLeadingMinus ((trimStr q).filter fun c => !c.isWhitespace) = []
      · have hchar : ∀ x ∈ trimStr q, x.isWhitespace = false → x = '-' := by
          intro x hx hw
          have hxf : x ∈ (trimStr q).filter fun c => !c.isWhitespace :=
            List.mem_filter.mpr ⟨hx, by simp [hw]⟩
          rcases stripLeadingMinus_eq_nil he with hnil | hone
          · rw [hnil] at hxf
            cases hxf
          · rw [hone] at hxf
            simpa using hxf
        have hfalse := detector_disj_eq_false
          (t := trimStr q)
          (fun x hx => by
            by_contra hxo
            rw [Bool.not_eq_false] at hxo
            rcases opChar_cases hxo with rfl | rfl | rfl | rfl | rfl <;>
              exact absurd (hchar _ hx (by decide)) (by decide))
          (minusScan_none_eq_false fun p hp hw => by
            rw [hchar p hp hw]
            decide)
          (fun d hd hdl => by
            have hdp := eq_lparen_of_toLower hdl
            subst hdp
            exact absurd (hchar _ hd (by decide)) (by decide))
        rw [hfalse]
        simp only [Bool.false_eq_true, false_iff, not_and]
        intro _ _ hnp
        rw [he] at hnp
        simp at hnp
      · rw [detector_disj_iff]
        constructor
        · intro hd
          refine ⟨by omega, List.all_eq_true.mp (by simpa using h2), ?_, hd⟩
          intro hall
          have hplain : is_plain_number (trimStr q) = true := by
            simp only [is_plain_number, Bool.and_eq_true]
            exact ⟨by simpa [List.isEmpty_iff] using he, hall⟩
          exact h3 hplain
        · rintro ⟨_, _, _, hd⟩
          exact hd
  · intro hall
    have hallT : ∀ x ∈ trimStr q, x.isAlpha = true ∨ x.isWhitespace = true :=
      fun x hx => hall x (mem_of_mem_trimStr hx)
    simp only [looks_like_expression]
    split_ifs with h1 h2 h3
    · rfl
    · rfl
    · rfl
    · exact detector_disj_eq_false
        (fun x hx => by
          by_contra hxo
          rw [Bool.not_eq_false] at hxo
          rcases opChar_cases hxo with rfl | rfl | rfl | rfl | rfl <;>
            rcases hallT _ hx with hh | hh <;> exact absurd hh (by decide))
        (minusScan_eq_false_of_not_mem none fun hmem => by
          rcases hallT _ hmem with hh | hh <;> exact absurd hh (by decide))
        (fun d hd hdl => by
          have hdp := eq_lparen_of_toLower hdl
          subst hdp
          rcases hallT _ hd with hh | hh <;> exact absurd hh (by decide))

/-- Witness for C3: the theorem applied at concrete inputs, rejecting the
pure-alphabetic string and accepting an arithmetic expression. -/
theorem looks_like_expression_correct_witness :
    looks_like_expression (sl "hello world") = false ∧
      SpecLooksLikeExpression (sl "2+2") :=
  ⟨(looks_like_expression_correct (sl "hello world")).2 (by decide),
   (looks_like_expression_correct (sl "2+2")).1.mp (by decide)⟩

/-! ## Expression evaluator (src/calculator/evaluation.rs)

Finite doubles are modelled by the exact rationals they denote; the fasteval
parser-evaluator is an `Env` parameter producing an abstract `F64` outcome
(NaN, positive or negative infinity, or a finite value). -/

/-- Outcome of evaluating an expression to a double. -/
inductive F64 where
  | nan : F64
  | inf : F64
  | neginf : F64
  | finite (q : ℚ) : F64
deriving DecidableEq

/-- The `CalcResult` enum of evaluation.rs. -/
inductive CalcResult where
  | success (expression : Str) (value : ℚ)
      (display_result : Str) (clipboard_result : Str) : CalcResult
  | error (expression : Str) (message : Str) : CalcResult
deriving DecidableEq

/-- Decimal digits of a natural number, most significant first. -/
def natDigits (n : ℕ) : Str := Nat.toDigits 10 n

/-- The separator-insertion loop of `format_with_separators`: walk the
reversed digit string and emit a comma before every position that is a
positive multiple of 3. -/
def sepRevAux : ℕ → Str → Str
  | _, [] => []
  | i, c :: rest =>
    (if 0 < i ∧ i % 3 = 0 then [','] else []) ++ c :: sepRevAux (i + 1) rest

/-- Model of `format_with_separators`: decimal rendering of the absolute
value with a comma every three digits from the right, then the sign. -/
def format_with_separators (value : ℤ) : Str :=
  let s := natDigits value.natAbs
  let result := sepRevAux 0 s.reverse
  (if value < 0 then ['-'] else []) ++ result.reverse

/-- Round `num / den` to the nearest integer, ties to even — the rounding
Rust float formatting applies to the exact binary value. -/
def roundTiesEvenNat (num den : ℕ) : ℕ :=
  let q := num / den
  let r := num % den
  if den < 2 * r then q + 1
  else if 2 * r < den then q
  else if q % 2 = 0 then q else q + 1

/-- Pad a digit string on the left with zeros to 10 characters. -/
def padLeft10 (l : Str) : Str := List.replicate (10 - l.length) '0' ++ l

/-- Model of Rust `{:.10}` formatting of the exact rational a finite double
denotes: sign, integer digits, a dot, then exactly ten fractional digits. -/
def formatFixed10 (v : ℚ) : Str :=
  let mn := roundTiesEvenNat (v.num.natAbs * 10 ^ 10) v.den
  (if v.num < 0 then ['-'] else []) ++
    natDigits (mn / 10 ^ 10) ++ '.' :: padLeft10 (natDigits (mn % 10 ^ 10))

/-- Model of Rust `trim_end_matches` for a single character. -/
def trimEndMatches (t : Char) (s : Str) : Str :=
  (s.reverse.dropWhile fun c => c = t).reverse

/-- Model of `i64::from_str`: optional sign, at least one digit, nothing
else, and the value must fit a signed 64-bit integer. -/
def parseI64 (s : Str) : Option ℤ :=
  let signed : Bool × Str :=
    match s with
    | '-' :: t => (true, t)
    | '+' :: t => (false, t)
    | t => (false, t)
  let digs := signed.2
  if digs.isEmpty || !digs.all Char.isDigit then none
  else
    let n : ℕ := digs.foldl (fun acc c => acc * 10 + (c.toNat - 48)) 0
    let z : ℤ := if signed.1 then -(n : ℤ) else (n : ℤ)
    if z < -(2 ^ 63) || 2 ^ 63 - 1 < z then none else some z

/-- Model of `format_display`: integers below 1e15 in magnitude get comma
grouping; otherwise a 10-decimal rendering is trimmed of trailing zeros and
a trailing dot, and the integer portion (re-parsed as an `i64`, defaulting
to 0 on failure) is comma-grouped. -/
def format_display (v : ℚ) : Str :=
  if v.den = 1 ∧ v.num.natAbs < 10 ^ 15 then format_with_separators v.num
  else
    let trimmed := trimEndMatches '.' (trimEndMatches '0' (formatFixed10 v))
    match trimmed.findIdx? (fun c => c = '.') with
    | some dotPos =>
        format_with_separators ((parseI64 (trimmed.take dotPos)).getD 0) ++
          trimmed.drop dotPos
    | none => format_with_separators ((parseI64 trimmed).getD 0)

/-- Model of `format_clipboard`: same numeric rule, no separators. -/
def format_clipboard (v : ℚ) : Str :=
  if v.den = 1 ∧ v.num.natAbs < 10 ^ 15 then
    (if v.num < 0 then ['-'] else []) ++ natDigits v.num.natAbs
  else trimEndMatches '.' (trimEndMatches '0' (formatFixed10 v))

/-- Model of `evaluate_expression`: trim the input, hand it to the parser,
and classify the numeric outcome. -/
def evaluate_expression (ez : Str → Option F64) (input : Str) :
    Option CalcResult :=
  let expression := trimStr input
  match ez expression with
  | Option.none => Option.none
  | some F64.nan => some (CalcResult.error expression (sl "Not a Number"))
  | some F64.inf => some (CalcResult.error expression (sl "Infinity"))
  | some F64.neginf => some (CalcResult.error expression (sl "-Infinity"))
  | some (F64.finite v) =>
      some (CalcResult.success expression v (format_display v)
        (format_clipboard v))

/-- C5: `evaluate_expression` returns nothing exactly when the parser fails,
maps NaN to the "Not a Number" error, the infinities to the "Infinity" and
"-Infinity" errors, and a finite value to a success carrying the (trimmed)
expression, the value, and the display and clipboard renderings. -/
theorem evaluate_expression_spec (ez : Str → Option F64) (input : Str) :
    (evaluate_expression ez input = none ↔ ez (trimStr input) = none) ∧
    (ez (trimStr input) = some F64.nan →
      evaluate_expression ez input =
        some (CalcResult.error (trimStr input) (sl "Not a Number"))) ∧
    (ez (trimStr input) = some F64.inf →
      evaluate_expression ez input =
        some (CalcResult.error (trimStr input) (sl "Infinity"))) ∧
    (ez (trimStr input) = some F64.neginf →
      evaluate_expression ez input =
        some (CalcResult.error (trimStr input) (sl "-Infinity"))) ∧
    (∀ v : ℚ, ez (trimStr input) = some (F64.finite v) →
      evaluate_expression ez input =
        some (CalcResult.success (trimStr input) v (format_display v)
          (format_clipboard v))) := by
  cases h : ez (trimStr input) with
  | none => simp [evaluate_expression, h]
  | some f => cases f <;> simp [evaluate_expression, h]

/-- Witness for C5: a parser returning the finite value 4 on the trimmed
input produces a success with display and clipboard string 4. -/
theorem evaluate_expression_spec_witness :
    evaluate_expression (fun _ => some (F64.finite 4)) (sl " 2 + 2 ") =
      some (CalcResult.success (sl "2 + 2") 4 (sl "4") (sl "4")) := by
  have h :=
    (evaluate_expression_spec (fun _ => some (F64.finite 4))
      (sl " 2 + 2 ")).2.2.2.2 4 rfl
  rw [h]
  decide

/-- C4: the display formatter does not render every finite value faithfully.
At the value -1/2 the 10-decimal rendering "-0.5000000000" trims to "-0.5",
whose integer portion "-0" re-parses to 0, so the comma-grouped integer part
drops the minus sign and the display reads "0.5" while the clipboard string
correctly reads "-0.5"; at the value 1e20 the integer portion exceeds the
i64 range, the parse fails, and the display collapses to "0". -/
theorem format_display_failing_inputs :
    format_display (mkRat (-1) 2) = sl "0.5" ∧
      format_clipboard (mkRat (-1) 2) = sl "-0.5" ∧
      format_display ((10 : ℚ) ^ 20) = sl "0" := by
  decide

/-! ## Item model (src/items/mod.rs)

The collaborator item records (applications, windows, actions, submenus)
live outside the core; only their display name feeds the engine, so each
variant carries its display string.  The `ai` and `search` variants are
referenced by the delegate but their carrier module is a collaborator; they
carry the query they were synthesized from. -/

/-- The `CalculatorItem` struct of src/items/calculator.rs. -/
structure CalculatorItem where
  id : Str
  expression : Str
  display_result : Str
  clipboard_result : Option Str
  is_error : Bool
deriving DecidableEq

/-- An AI suggestion item (collaborator `crate::ai::AiItem`), carrying the
query passed to `AiItem::new`. -/
structure AiItem where
  query : Str
deriving DecidableEq

/-- A search suggestion item (collaborator `SearchItem`), carrying the
provider and query passed to `SearchItem::new`. -/
structure SearchItem where
  provider : Str
  query : Str
deriving DecidableEq

/-- The `ListItem` enum. -/
inductive ListItem where
  | application (name : Str)
  | window (title : Str)
  | action (name : Str)
  | submenu (name : Str)
  | calculator (item : CalculatorItem)
  | ai (item : AiItem)
  | search (item : SearchItem)
deriving DecidableEq

/-- Display name of an item (`ListItem::name`); the `ai` and `search` arms
are collaborator code and never reach the ranker. -/
def ListItem.name : ListItem → Str
  | .application n => n
  | .window t => t
  | .action n => n
  | .submenu n => n
  | .calculator c => c.expression
  | .ai a => a.query
  | .search s => s.query

/-- Sort priority (`ListItem::sort_priority`):
Calculator 0 < Window 1 < Application 2 < Action 3 < Submenu 4.  The `ai`
and `search` arms are collaborator code, never ranked by the engine. -/
def ListItem.sort_priority : ListItem → ℕ
  | .calculator _ => 0
  | .window _ => 1
  | .application _ => 2
  | .action _ => 3
  | .submenu _ => 4
  | .ai _ => 5
  | .search _ => 6

/-- Variant test `ListItem::is_window`. -/
def ListItem.is_window : ListItem → Bool
  | .window _ => true
  | _ => false

/-- Variant test `ListItem::is_submenu`. -/
def ListItem.is_submenu : ListItem → Bool
  | .submenu _ => true
  | _ => false

/-- Variant test `ListItem::is_action`. -/
def ListItem.is_action : ListItem → Bool
  | .action _ => true
  | _ => false

/-- Variant test `ListItem::is_application`. -/
def ListItem.is_application : ListItem → Bool
  | .application _ => true
  | _ => false

/-! ## Collaborator environment

The pieces of behaviour the composer consumes from outside src/ are
gathered in a record and all composer theorems quantify over it. -/

/-- Result of the search-trigger parser (`SearchDetection` contract of the
spec, the module itself is a collaborator). -/
inductive SearchDetection where
  | triggered (provider : Str) (query : Str)
  | fallback (query : Str)
  | none
deriving DecidableEq

/-- Collaborator behaviour: the skim fuzzy matcher, the fasteval evaluator,
the trigger parser, the configured provider list and the Gemini
availability probe. -/
structure Env where
  matchScore : Str → Str → Option ℤ
  ezEval : Str → Option F64
  detect : Str → SearchDetection
  providers : List Str
  aiAvailable : Bool

/-! ## Stable sorting

Rust `sort_by`/`sort_by_key` are stable sorts; they are modelled by a
stable insertion sort: an element is placed before the first existing
element it compares less-or-equal to, so earlier elements precede equal
later ones. -/

/-- Stable insertion of `x` into `l`: `x` goes before the first `y` with
`le x y`. -/
def insertLe (le : α → α → Bool) (x : α) : List α → List α
  | [] => [x]
  | y :: ys => if le x y then x :: y :: ys else y :: insertLe le x ys

/-- Stable insertion sort with boolean comparator `le`. -/
def isort (le : α → α → Bool) : List α → List α
  | [] => []
  | x :: xs => insertLe le x (isort le xs)

theorem insertLe_perm (le : α → α → Bool) (x : α) :
    ∀ l, (insertLe le x l).Perm (x :: l) := by
  intro l
  induction l with
  | nil => rfl
  | cons y ys ih =>
    unfold insertLe
    by_cases h : le x y = true
    · rw [if_pos h]
    · rw [if_neg h]
      exact ((ih.cons y).trans (List.Perm.swap x y ys))

theorem isort_perm (le : α → α → Bool) : ∀ l, (isort le l).Perm l := by
  intro l
  induction l with
  | nil => rfl
  | cons x xs ih =>
    exact (insertLe_perm le x (isort le xs)).trans (ih.cons x)

theorem mem_insertLe {le : α → α → Bool} {x a : α} {l : List α}
    (h : a ∈ insertLe le x l) : a = x ∨ a ∈ l := by
  have := (insertLe_perm le x l).mem_iff.mp h
  simpa using this

theorem insertLe_pairwise {R : α → α → Prop} (hR : Transitive R)
    (le : α → α → Bool) (x : α) :
    ∀ l, (∀ b ∈ l, (le x b = true → R x b) ∧ (le x b = false → R b x)) →
      l.Pairwise R → (insertLe le x l).Pairwise R := by
  intro l
  induction l with
  | nil =>
    intro _ _
    simp [insertLe]
  | cons y ys ih =>
    intro hcond hl
    rcases List.pairwise_cons.mp hl with ⟨hy, hys⟩
    unfold insertLe
    by_cases h : le x y = true
    · rw [if_pos h]
      refine List.Pairwise.cons ?_ hl
      intro b hb
      rcases List.mem_cons.mp hb with rfl | hb2
      · exact (hcond b (List.mem_cons_self _ _)).1 h
      · exact hR ((hcond y (List.mem_cons_self _ _)).1 h) (hy b hb2)
    · rw [if_neg h]
      refine List.Pairwise.cons ?_ ?_
      · intro b hb
        rcases mem_insertLe hb with rfl | hb2
        · exact (hcond y (List.mem_cons_self _ _)).2 (by simpa using h)
        · exact hy b hb2
      · exact ih (fun b hb => hcond b (List.mem_cons_of_mem _ hb)) hys

theorem isort_pairwise {R : α → α → Prop} (hR : Transitive R)
    (le : α → α → Bool) :
    ∀ l, l.Pairwise (fun a b => (le a b = true → R a b) ∧
        (le a b = false → R b a)) →
      (isort le l).Pairwise R := by
  intro l
  induction l with
  | nil =>
    intro _
    exact List.Pairwise.nil
  | cons x xs ih =>
    intro h
    rcases List.pairwise_cons.mp h with ⟨hx, hxs⟩
    exact insertLe_pairwise hR le x (isort le xs)
      (fun b hb => hx b ((isort_perm le xs).mem_iff.mp hb)) (ih hxs)

theorem pairwise_of_total {R : α → α → Prop} (h : ∀ a b, R a b) :
    ∀ l : List α, l.Pairwise R := by
  intro l
  induction l with
  | nil => exact List.Pairwise.nil
  | cons x xs ih => exact List.Pairwise.cons (fun b _ => h x b) ih

/-! ## The fuzzy ranker (`filter_items_sync` in src/ui/items/delegate.rs) -/

/-- Sort priority of the catalog item at position `i` (positions produced by
the ranker always index into the catalog). -/
def prioAt (items : List ListItem) (i : ℕ) : ℕ :=
  ((items[i]?).map ListItem.sort_priority).getD 0

/-- Display name of the catalog item at position `i`. -/
def nameAt (items : List ListItem) (i : ℕ) : Str :=
  ((items[i]?).map ListItem.name).getD []

/-- Comparator of the empty-query branch (`sort_by_key(sort_priority)`). -/
def leEmpty (items : List ListItem) (i j : ℕ) : Bool :=
  decide (prioAt items i ≤ prioAt items j)

/-- Comparator of the scored branch: priority ascending, then score
descending (`priority.cmp... .then_with(b.1.cmp(a.1))` is not Greater). -/
def leScored (items : List ListItem) (a b : ℕ × ℤ) : Bool :=
  decide (prioAt items a.1 < prioAt items b.1 ∨
    (prioAt items a.1 = prioAt items b.1 ∧ b.2 ≤ a.2))

/-- The scored sequence built by `filter_map` over the enumerated catalog:
the positions whose display name matches the query, paired with the score. -/
def scoredList (env : Env) (items : List ListItem) (query : Str) :
    List (ℕ × ℤ) :=
  (List.range items.length).filterMap fun i =>
    (env.matchScore (nameAt items i) query).map fun sc => (i, sc)

/-- Model of `filter_items_sync`: empty query sorts all positions stably by
priority; otherwise the matching positions are sorted stably by priority
then score descending, and the scores are dropped. -/
def filter_items_sync (env : Env) (items : List ListItem) (query : Str) :
    List ℕ :=
  if query.isEmpty then isort (leEmpty items) (List.range items.length)
  else (isort (leScored items) (scoredList env items query)).map Prod.fst

/-- Strict order demanded of the empty-query result: priority ascending
with ties in catalog insertion order. -/
def PriorityIndexOrder (items : List ListItem) (i j : ℕ) : Prop :=
  prioAt items i < prioAt items j ∨
    (prioAt items i = prioAt items j ∧ i < j)

/-- Order demanded of the scored result: priority ascending, score
descending within a priority bucket. -/
def PriorityScoreOrder (items : List ListItem) (a b : ℕ × ℤ) : Prop :=
  prioAt items a.1 < prioAt items b.1 ∨
    (prioAt items a.1 = prioAt items b.1 ∧ b.2 ≤ a.2)

/-- C7: the ranker returns, for the empty query, every catalog position
ordered by priority ascending with ties preserving insertion order; and for
a non-empty query exactly the matching positions, ordered by priority
ascending then score descending (so never reordered across priority
buckets). -/
theorem filter_items_sync_spec (env : Env) (items : List ListItem)
    (query : Str) :
    (query = [] →
      (filter_items_sync env items query).Perm (List.range items.length) ∧
      (filter_items_sync env items query).Pairwise (PriorityIndexOrder items)) ∧
    (query ≠ [] → ∃ scored : List (ℕ × ℤ),
      filter_items_sync env items query = scored.map Prod.fst ∧
      scored.Perm (scoredList env items query) ∧
      scored.Pairwise (PriorityScoreOrder items)) := by
  constructor
  · rintro rfl
    have hempty : filter_items_sync env items [] =
        isort (leEmpty items) (List.range items.length) := rfl
    rw [hempty]
    refine ⟨isort_perm _ _, ?_⟩
    refine isort_pairwise ?_ _ _ ?_
    · intro a b c hab hbc
      unfold PriorityIndexOrder at hab hbc ⊢
      omega
    · refine (List.pairwise_lt_range items.length).imp ?_
      intro i j hij
      unfold leEmpty PriorityIndexOrder
      constructor
      · intro hle
        rw [decide_eq_true_eq] at hle
        omega
      · intro hle
        rw [decide_eq_false_iff_not] at hle
        omega
  · intro hq
    have hne : query.isEmpty = false := by
      cases query with
      | nil => exact absurd rfl hq
      | cons c t => rfl
    refine ⟨isort (leScored items) (scoredList env items query), ?_, ?_, ?_⟩
    · unfold filter_items_sync
      rw [hne]
      rfl
    · exact isort_perm _ _
    · refine isort_pairwise ?_ _ _ ?_
      · intro a b c hab hbc
        unfold PriorityScoreOrder at hab hbc ⊢
        rcases hab with h1 | ⟨h1, h2⟩ <;> rcases hbc with h3 | ⟨h3, h4⟩
        · exact Or.inl (by omega)
        · exact Or.inl (by omega)
        · exact Or.inl (by omega)
        · exact Or.inr ⟨by omega, by omega⟩
      · refine pairwise_of_total ?_ _
        intro a b
        unfold leScored PriorityScoreOrder
        constructor
        · intro hle
          rw [decide_eq_true_eq] at hle
          exact hle
        · intro hle
          rw [decide_eq_false_iff_not] at hle
          rcases Nat.lt_trichotomy (prioAt items a.1) (prioAt items b.1) with
            h1 | h1 | h1
          · exact absurd (Or.inl h1) hle
          · refine Or.inr ⟨h1.symm, ?_⟩
            by_contra h2
            exact hle (Or.inr ⟨h1, by omega⟩)
          · exact Or.inl h1

/-- Witness for C7: on a two-item catalog the empty-query branch returns a
permutation of the positions in priority order, and a non-empty query
produces the sorted scored decomposition. -/
theorem filter_items_sync_spec_witness :
    ((filter_items_sync ⟨fun _ _ => Option.none, fun _ => Option.none,
        fun _ => SearchDetection.none, [], false⟩
      [ListItem.application (sl "alpha"), ListItem.window (sl "beta")]
      []).Perm (List.range 2) ∧
    (filter_items_sync ⟨fun _ _ => Option.none, fun _ => Option.none,
        fun _ => SearchDetection.none, [], false⟩
      [ListItem.application (sl "alpha"), ListItem.window (sl "beta")]
      []).Pairwise (PriorityIndexOrder
        [ListItem.application (sl "alpha"), ListItem.window (sl "beta")])) ∧
    (∃ scored : List (ℕ × ℤ),
      filter_items_sync ⟨fun n q => if n = q then some 1 else Option.none,
          fun _ => Option.none, fun _ => SearchDetection.none, [], false⟩
        [ListItem.application (sl "alpha"), ListItem.window (sl "beta")]
        (sl "alpha") = scored.map Prod.fst ∧
      scored.Perm (scoredList ⟨fun n q => if n = q then some 1 else Option.none,
          fun _ => Option.none, fun _ => SearchDetection.none, [], false⟩
        [ListItem.application (sl "alpha"), ListItem.window (sl "beta")]
        (sl "alpha")) ∧
      scored.Pairwise (PriorityScoreOrder
        [ListItem.application (sl "alpha"), ListItem.window (sl "beta")])) :=
  ⟨(filter_items_sync_spec _ _ []).1 rfl,
   (filter_items_sync_spec _ _ (sl "alpha")).2 (by decide)⟩

/-! ## Section composer / index mapper (`ItemListDelegate`) -/

/-- The `SectionInfo` counts. -/
structure SectionInfo where
  search_count : ℕ
  window_count : ℕ
  command_count : ℕ
  app_count : ℕ
deriving DecidableEq

/-- The section kinds (`SectionType`). -/
inductive SectionType where
  | calculator
  | ai
  | search
  | windows
  | commands
  | applications
deriving DecidableEq

/-- The delegate state (`ItemListDelegate`); the confirm/cancel callbacks
are side-effecting collaborators and carry no engine state. -/
structure ItemListDelegate where
  items : List ListItem
  filtered_indices : List ℕ
  section_info : SectionInfo
  selected_index : Option ℕ
  query : Str
  calculator_item : Option CalculatorItem
  ai_item : Option AiItem
  search_items : List SearchItem
deriving DecidableEq

/-- Model of `compute_section_info`: count windows, commands (submenus and
actions merged) and applications among the filtered positions. -/
def compute_section_info (items : List ListItem) (filtered : List ℕ) :
    SectionInfo :=
  filtered.foldl
    (fun info idx =>
      match items[idx]? with
      | some item =>
        if item.is_window then
          { info with window_count := info.window_count + 1 }
        else if item.is_submenu || item.is_action then
          { info with command_count := info.command_count + 1 }
        else if item.is_application then
          { info with app_count := info.app_count + 1 }
        else info
      | Option.none => info)
    ⟨0, 0, 0, 0⟩

/-- Model of `CalculatorItem::from_calc_result`. -/
def CalculatorItem.from_calc_result : CalcResult → CalculatorItem
  | .success e _ d c => ⟨sl "calculator-result", e, d, some c, false⟩
  | .error e m => ⟨sl "calculator-result", e, m, Option.none, true⟩

/-- Model of `try_evaluate_calculator`: gate on the detector, then evaluate. -/
def try_evaluate_calculator (env : Env) (query : Str) :
    Option CalculatorItem :=
  if !looks_like_expression query then Option.none
  else (evaluate_expression env.ezEval query).map CalculatorItem.from_calc_result

/-- Model of `try_generate_search_items` (reads the freshly stored
calculator item). -/
def try_generate_search_items (env : Env) (calcItem : Option CalculatorItem)
    (query : Str) (has_matches : Bool) : List SearchItem :=
  if calcItem.isSome then []
  else
    match env.detect query with
    | .triggered provider q => [⟨provider, q⟩]
    | .fallback q =>
        if !has_matches && !q.isEmpty then
          env.providers.map fun provider => ⟨provider, q⟩
        else []
    | .none => []

/-- Model of `try_generate_ai_item`: no item while a calculator item is
held or the Gemini client is unavailable; otherwise an explicit `!ai`
trigger with a non-empty remainder, or the zero-matches fallback. -/
def try_generate_ai_item (env : Env) (calcItem : Option CalculatorItem)
    (query : Str) (has_matches : Bool) : Option AiItem :=
  if calcItem.isSome then Option.none
  else if !env.aiAvailable then Option.none
  else
    let trimmed := trimStr query
    if listStartsWith (sl "!ai") trimmed then
      let aiQuery := trimStr (trimmed.drop 3)
      if aiQuery.isEmpty then Option.none
      else some ⟨aiQuery⟩
    else if !has_matches && !trimmed.isEmpty then some ⟨trimmed⟩
    else Option.none

/-- The shared recomputation step of `filter_items` and the fresh branch of
`apply_filter_results`: store the calculator item, the AI item, the search
items (suppressed under an `!ai` trigger), the filtered indices, the
section counts, and reset the selection. -/
def recompute (env : Env) (s : ItemListDelegate) (query : Str)
    (indices : List ℕ) : ItemListDelegate :=
  let calcItem := try_evaluate_calculator env query
  let hasMatches := !indices.isEmpty
  let aiItem := try_generate_ai_item env calcItem query hasMatches
  let trimmed := trimStr query
  let searchItems :=
    if listStartsWith (sl "!ai") trimmed then []
    else try_generate_search_items env calcItem query hasMatches
  let si0 := compute_section_info s.items indices
  let si := { si0 with search_count := searchItems.length }
  let hasItems :=
    calcItem.isSome || aiItem.isSome || !searchItems.isEmpty || !indices.isEmpty
  { s with
    calculator_item := calcItem
    ai_item := aiItem
    search_items := searchItems
    filtered_indices := indices
    section_info := si
    selected_index := if hasItems then some 0 else Option.none }

/-- Model of `filter_items`: synchronous recomputation from the live query. -/
def filter_items (env : Env) (s : ItemListDelegate) : ItemListDelegate :=
  recompute env s s.query (filter_items_sync env s.items s.query)

/-- Model of `apply_filter_results`: apply background results only when the
query they were computed for still equals the live query. -/
def apply_filter_results (env : Env) (s : ItemListDelegate) (query : Str)
    (indices : List ℕ) : ItemListDelegate :=
  if s.query = query then recompute env s query indices else s

/-- Model of `set_query`. -/
def set_query (env : Env) (s : ItemListDelegate) (query : Str) :
    ItemListDelegate :=
  filter_items env { s with query := query }

/-- Model of `clear_query`. -/
def clear_query (env : Env) (s : ItemListDelegate) : ItemListDelegate :=
  filter_items env
    { s with
      query := []
      calculator_item := Option.none
      ai_item := Option.none
      search_items := [] }

/-- Model of `filtered_count`: length of the combined sequence. -/
def filtered_count (s : ItemListDelegate) : ℕ :=
  s.filtered_indices.length +
    (if s.calculator_item.isSome then 1 else 0) +
    (if s.ai_item.isSome then 1 else 0) +
    s.search_items.length

/-- Model of `set_selected`: stores the index unconditionally. -/
def set_selected (s : ItemListDelegate) (index : ℕ) : ItemListDelegate :=
  { s with selected_index := some index }

/-- The final step of `get_item_at`: look up a filtered position and chain
into the catalog (`filtered_indices.get(i).and_then(|&idx| items.get(idx))`). -/
def lookupFiltered (items : List ListItem) (fi : List ℕ) (i : ℕ) :
    Option ListItem :=
  (fi[i]?).bind fun idx => items[idx]?

/-- Model of `get_item_at`: calculator, then AI, then search items, then
the filtered catalog positions. -/
def get_item_at (s : ItemListDelegate) (row : ℕ) : Option ListItem :=
  if s.calculator_item.isSome ∧ row = 0 then
    s.calculator_item.map ListItem.calculator
  else
    let off1 := if s.calculator_item.isSome then 1 else 0
    if s.ai_item.isSome ∧ row = off1 then s.ai_item.map ListItem.ai
    else
      let off2 := off1 + (if s.ai_item.isSome then 1 else 0)
      if row < off2 + s.search_items.length then
        (s.search_items[row - off2]?).map ListItem.search
      else
        lookupFiltered s.items s.filtered_indices
          (row - (off2 + s.search_items.length))

/-- Model of `section_type_at`: walk the non-empty sections in the fixed
order and name the one at the given ordinal, defaulting to Applications. -/
def section_type_at (s : ItemListDelegate) (sectionIdx : ℕ) : SectionType :=
  if s.calculator_item.isSome ∧ sectionIdx = 0 then SectionType.calculator
  else
    let c1 := if s.calculator_item.isSome then 1 else 0
    if s.ai_item.isSome ∧ sectionIdx = c1 then SectionType.ai
    else
      let c2 := c1 + (if s.ai_item.isSome then 1 else 0)
      if 0 < s.section_info.search_count ∧ sectionIdx = c2 then
        SectionType.search
      else
        let c3 := c2 + (if 0 < s.section_info.search_count then 1 else 0)
        if 0 < s.section_info.window_count ∧ sectionIdx = c3 then
          SectionType.windows
        else
          let c4 := c3 + (if 0 < s.section_info.window_count then 1 else 0)
          if 0 < s.section_info.command_count ∧ sectionIdx = c4 then
            SectionType.commands
          else SectionType.applications

/-- Contribution of a held calculator item to the global offsets. -/
def calcOffset (s : ItemListDelegate) : ℕ :=
  if s.calculator_item.isSome then 1 else 0

/-- Contribution of a held AI item to the global offsets. -/
def aiOffset (s : ItemListDelegate) : ℕ :=
  if s.ai_item.isSome then 1 else 0

/-- Model of `section_start_index`: sum of the sizes of the preceding
sections in the fixed order. -/
def section_start_index (s : ItemListDelegate) : SectionType → ℕ
  | SectionType.calculator => 0
  | SectionType.ai => calcOffset s
  | SectionType.search => calcOffset s + aiOffset s
  | SectionType.windows =>
      calcOffset s + aiOffset s + s.section_info.search_count
  | SectionType.commands =>
      calcOffset s + aiOffset s + s.section_info.search_count +
        s.section_info.window_count
  | SectionType.applications =>
      calcOffset s + aiOffset s + s.section_info.search_count +
        s.section_info.window_count + s.section_info.command_count

/-- Model of `section_row_to_global`. -/
def section_row_to_global (s : ItemListDelegate) (sectionIdx row : ℕ) : ℕ :=
  section_start_index s (section_type_at s sectionIdx) + row

/-- Model of `global_to_section_row`: subtract section spans in the fixed
order until the global index falls inside the current span. -/
def global_to_section_row (s : ItemListDelegate) (global : ℕ) : ℕ × ℕ :=
  let calcOff := if s.calculator_item.isSome then 1 else 0
  let aiEnd := calcOff + (if s.ai_item.isSome then 1 else 0)
  let searchEnd := aiEnd + s.section_info.search_count
  let windowEnd := searchEnd + s.section_info.window_count
  let commandEnd := windowEnd + s.section_info.command_count
  if s.calculator_item.isSome ∧ global = 0 then (0, 0)
  else
    let i1 := if s.calculator_item.isSome then 1 else 0
    if s.ai_item.isSome ∧ global < aiEnd then (i1, global - calcOff)
    else
      let i2 := i1 + (if s.ai_item.isSome then 1 else 0)
      if 0 < s.section_info.search_count ∧ global < searchEnd then
        (i2, global - aiEnd)
      else
        let i3 := i2 + (if 0 < s.section_info.search_count then 1 else 0)
        if 0 < s.section_info.window_count ∧ global < windowEnd then
          (i3, global - searchEnd)
        else
          let i4 := i3 + (if 0 < s.section_info.window_count then 1 else 0)
          if 0 < s.section_info.command_count ∧ global < commandEnd then
            (i4, global - windowEnd)
          else
            let i5 :=
              i4 + (if 0 < s.section_info.command_count then 1 else 0)
            (i5, global - commandEnd)

/-! ## Concrete states used by witnesses and counterexamples -/

/-- A collaborator environment with no matcher hits, no parser, no triggers,
no providers and no AI availability. -/
def emptyEnv : Env :=
  ⟨fun _ _ => Option.none, fun _ => Option.none,
   fun _ => SearchDetection.none, [], false⟩

/-- The delegate state over an empty catalog with nothing held. -/
def emptyDelegate : ItemListDelegate :=
  ⟨[], [], ⟨0, 0, 0, 0⟩, Option.none, [], Option.none, Option.none, []⟩

/-- A composed state holding a calculator item, two search items and one
filtered window position. -/
def sampleState : ItemListDelegate :=
  ⟨[ListItem.window (sl "w")], [0], ⟨2, 1, 0, 0⟩, some 0, [],
   some ⟨sl "calculator-result", sl "2+2", sl "4", some (sl "4"), false⟩,
   Option.none, [⟨sl "g", sl "q"⟩, ⟨sl "d", sl "q"⟩]⟩

/-! ## C8: the stale-query guard -/

/-- C8: applying background results computed for a query that no longer
equals the live query leaves the whole delegate state unchanged. -/
theorem apply_filter_results_stale (env : Env) (s : ItemListDelegate)
    (query : Str) (indices : List ℕ) (h : s.query ≠ query) :
    apply_filter_results env s query indices = s := by
  unfold apply_filter_results
  rw [if_neg h]

/-- Witness for C8: stale results on the empty delegate are discarded. -/
theorem apply_filter_results_stale_witness :
    apply_filter_results emptyEnv emptyDelegate (sl "x") [3] = emptyDelegate :=
  apply_filter_results_stale emptyEnv emptyDelegate (sl "x") [3] (by decide)

/-! ## C10: the AI availability gate -/

/-- C10: when the Gemini availability probe answers false no AI item is
ever synthesized, for every query, held calculator item and value of the
`has_matches` flag. -/
theorem try_generate_ai_item_unavailable (env : Env)
    (calcItem : Option CalculatorItem) (query : Str) (has_matches : Bool)
    (h : env.aiAvailable = false) :
    try_generate_ai_item env calcItem query has_matches = Option.none := by
  simp [try_generate_ai_item, h]

/-- Witness for C10: even an explicit `!ai` trigger with a non-empty
remainder and no catalog matches yields no AI item when unavailable. -/
theorem try_generate_ai_item_unavailable_witness :
    try_generate_ai_item emptyEnv Option.none (sl "!ai hello") false =
      Option.none :=
  try_generate_ai_item_unavailable emptyEnv Option.none (sl "!ai hello")
    false rfl

/-! ## C1: the index bijection -/

set_option maxHeartbeats 4000000 in
/-- Round trip of the index maps in one held-item configuration. -/
theorem roundtrip_case_nn (s : ItemListDelegate) (g : ℕ) (hc : s.calculator_item = Option.none) (ha : s.ai_item = Option.none) :
    section_row_to_global s (global_to_section_row s g).1
      (global_to_section_row s g).2 = g := by
  simp only [global_to_section_row, section_row_to_global, hc, ha,
    Option.isSome_some, Option.isSome_none, Bool.false_eq_true, false_and,
    true_and, and_true, if_false] <;>
  split_ifs <;>
  (try dsimp only) <;>
  (try simp only [section_type_at, hc, ha, Option.isSome_some,
    Option.isSome_none, Bool.false_eq_true, false_and, true_and, and_true,
    if_false]) <;>
  (try split_ifs) <;>
  (try simp only [section_start_index, calcOffset, aiOffset, hc, ha,
    Option.isSome_some, Option.isSome_none, Bool.false_eq_true, if_true,
    if_false, ite_true, ite_false]) <;>
  first
  | (exfalso; assumption)
  | omega

set_option maxHeartbeats 4000000 in
/-- Round trip of the index maps in one held-item configuration. -/
theorem roundtrip_case_ns (s : ItemListDelegate) (g : ℕ) (ai : AiItem) (hc : s.calculator_item = Option.none) (ha : s.ai_item = some ai) :
    section_row_to_global s (global_to_section_row s g).1
      (global_to_section_row s g).2 = g := by
  simp only [global_to_section_row, section_row_to_global, hc, ha,
    Option.isSome_some, Option.isSome_none, Bool.false_eq_true, false_and,
    true_and, and_true, if_false] <;>
  split_ifs <;>
  (try dsimp only) <;>
  (try simp only [section_type_at, hc, ha, Option.isSome_some,
    Option.isSome_none, Bool.false_eq_true, false_and, true_and, and_true,
    if_false]) <;>
  (try split_ifs) <;>
  (try simp only [section_start_index, calcOffset, aiOffset, hc, ha,
    Option.isSome_some, Option.isSome_none, Bool.false_eq_true, if_true,
    if_false, ite_true, ite_false]) <;>
  first
  | (exfalso; assumption)
  | omega

set_option maxHeartbeats 4000000 in
/-- Round trip of the index maps in one held-item configuration. -/
theorem roundtrip_case_sn (s : ItemListDelegate) (g : ℕ) (ci : CalculatorItem) (hc : s.calculator_item = some ci) (ha : s.ai_item = Option.none) :
    section_row_to_global s (global_to_section_row s g).1
      (global_to_section_row s g).2 = g := by
  simp only [global_to_section_row, section_row_to_global, hc, ha,
    Option.isSome_some, Option.isSome_none, Bool.false_eq_true, false_and,
    true_and, and_true, if_false] <;>
  split_ifs <;>
  (try dsimp only) <;>
  (try simp only [section_type_at, hc, ha, Option.isSome_some,
    Option.isSome_none, Bool.false_eq_true, false_and, true_and, and_true,
    if_false]) <;>
  (try split_ifs) <;>
  (try simp only [section_start_index, calcOffset, aiOffset, hc, ha,
    Option.isSome_some, Option.isSome_none, Bool.false_eq_true, if_true,
    if_false, ite_true, ite_false]) <;>
  first
  | (exfalso; assumption)
  | omega

set_option maxHeartbeats 4000000 in
/-- Round trip of the index maps in one held-item configuration. -/
theorem roundtrip_case_ss (s : ItemListDelegate) (g : ℕ) (ci : CalculatorItem) (ai : AiItem) (hc : s.calculator_item = some ci) (ha : s.ai_item = some ai) :
    section_row_to_global s (global_to_section_row s g).1
      (global_to_section_row s g).2 = g := by
  simp only [global_to_section_row, section_row_to_global, hc, ha,
    Option.isSome_some, Option.isSome_none, Bool.false_eq_true, false_and,
    true_and, and_true, if_false] <;>
  split_ifs <;>
  (try dsimp only) <;>
  (try simp only [section_type_at, hc, ha, Option.isSome_some,
    Option.isSome_none, Bool.false_eq_true, false_and, true_and, and_true,
    if_false]) <;>
  (try split_ifs) <;>
  (try simp only [section_start_index, calcOffset, aiOffset, hc, ha,
    Option.isSome_some, Option.isSome_none, Bool.false_eq_true, if_true,
    if_false, ite_true, ite_false]) <;>
  first
  | (exfalso; assumption)
  | omega

/-- Round trip of the index maps, with no constraint on the global index:
`global_to_section_row` and `section_row_to_global` are built over the same
cumulative span thresholds, so composing them restores the input. -/
theorem roundtrip_all (s : ItemListDelegate) (g : ℕ) :
    section_row_to_global s (global_to_section_row s g).1
      (global_to_section_row s g).2 = g := by
  rcases hc : s.calculator_item with _ | ci <;>
    rcases ha : s.ai_item with _ | ai
  · exact roundtrip_case_nn s g hc ha
  · exact roundtrip_case_ns s g ai hc ha
  · exact roundtrip_case_sn s g ci hc ha
  · exact roundtrip_case_ss s g ci ai hc ha

/-- C1: for every composed view and every global index below the combined
length, mapping to (section, row) and back restores the global index. -/
theorem section_row_global_roundtrip (s : ItemListDelegate) (g : ℕ)
    (hg : g < filtered_count s) :
    section_row_to_global s (global_to_section_row s g).1
      (global_to_section_row s g).2 = g :=
  roundtrip_all s g

/-- Witness for C1: the round trip on a composed view holding a calculator
item, two search items and a window, at the global index of the window. -/
theorem section_row_global_roundtrip_witness :
    3 < filtered_count sampleState ∧
      section_row_to_global sampleState
        (global_to_section_row sampleState 3).1
        (global_to_section_row sampleState 3).2 = 3 :=
  ⟨by decide, section_row_global_roundtrip sampleState 3 (by decide)⟩

/-! ## C9: totality of the global item lookup -/

theorem map_search_isSome {l : List SearchItem} {i : ℕ} (h : i < l.length) :
    ((l[i]?).map ListItem.search).isSome = true := by
  rw [List.getElem?_eq_getElem h]
  rfl

theorem lookupFiltered_isSome {items : List ListItem} {fi : List ℕ} {i : ℕ}
    (h1 : i < fi.length) (h2 : ∀ j ∈ fi, j < items.length) :
    (lookupFiltered items fi i).isSome = true := by
  unfold lookupFiltered
  rw [List.getElem?_eq_getElem h1]
  have hm := h2 _ (List.getElem_mem h1)
  rw [Option.some_bind, List.getElem?_eq_getElem hm]
  rfl

theorem lookupFiltered_none {items : List ListItem} {fi : List ℕ} {i : ℕ}
    (h : fi.length ≤ i) : lookupFiltered items fi i = Option.none := by
  unfold lookupFiltered
  rw [List.getElem?_eq_none h]
  rfl

/-- C9: over any composed view whose filtered positions index into the
catalog, `get_item_at` answers every global index below the combined length
with an item and every index at or beyond it with nothing, on every branch
without under- or overflowing an index. -/
theorem get_item_at_total (s : ItemListDelegate) (g : ℕ)
    (hvalid : ∀ i ∈ s.filtered_indices, i < s.items.length) :
    (g < filtered_count s → (get_item_at s g).isSome = true) ∧
    (filtered_count s ≤ g → get_item_at s g = Option.none) := by
  rcases hc : s.calculator_item with _ | ci <;>
  rcases ha : s.ai_item with _ | ai <;>
  constructor <;>
  intro hg <;>
  unfold filtered_count at hg <;>
  simp only [hc, ha, Option.isSome_some, Option.isSome_none,
    Bool.false_eq_true, if_true, if_false] at hg <;>
  unfold get_item_at <;>
  simp only [hc, ha, Option.isSome_some, Option.isSome_none,
    Bool.false_eq_true, false_and, true_and, and_true, if_true,
    if_false] <;>
  split_ifs <;>
  first
  | rfl
  | (exfalso; omega)
  | (exact map_search_isSome (by omega))
  | (exact lookupFiltered_isSome (by omega) hvalid)
  | (exact lookupFiltered_none (by omega))

/-- Witness for C9: on a one-application view, index 0 resolves to an item
and index 3 (beyond the combined length) resolves to nothing. -/
theorem get_item_at_total_witness :
    (get_item_at ⟨[ListItem.application (sl "a")], [0], ⟨0, 0, 0, 1⟩,
      some 0, [], Option.none, Option.none, []⟩ 0).isSome = true ∧
    get_item_at ⟨[ListItem.application (sl "a")], [0], ⟨0, 0, 0, 1⟩,
      some 0, [], Option.none, Option.none, []⟩ 3 = Option.none :=
  ⟨(get_item_at_total _ 0 (by decide)).1 (by decide),
   (get_item_at_total _ 3 (by decide)).2 (by decide)⟩

/-! ## C6: the selection invariant -/

/-- The selection invariant of the spec: no selection exactly when the
combined sequence is empty, otherwise an in-range selection. -/
def SelectionInvariant (s : ItemListDelegate) : Prop :=
  (s.selected_index = Option.none ↔ filtered_count s = 0) ∧
  ∀ i, s.selected_index = some i → i < filtered_count s

/-- Every recomputation (hence every query change, synchronous or applied
from the background) establishes the invariant and resets the selection to
index 0 exactly when the combined sequence is non-empty. -/
theorem recompute_selection (env : Env) (s : ItemListDelegate) (query : Str)
    (indices : List ℕ) :
    SelectionInvariant (recompute env s query indices) ∧
    ((recompute env s query indices).selected_index =
      if filtered_count (recompute env s query indices) = 0 then Option.none
      else some 0) := by
  unfold recompute SelectionInvariant filtered_count
  dsimp only
  generalize try_evaluate_calculator env query = calcv
  generalize try_generate_ai_item env calcv query (!indices.isEmpty) = aiv
  generalize (if listStartsWith (sl "!ai") (trimStr query) then []
    else try_generate_search_items env calcv query (!indices.isEmpty)) = searchv
  rcases calcv with _ | c <;> rcases aiv with _ | a <;>
    cases searchv <;> cases indices <;>
    simp [Option.isSome] <;> omega

/-- C6 counterexample: the claim fails as stated, because `set_selected`
stores any index unconditionally; on the empty view (which satisfies the
invariant) an explicit selection update leaves a dangling selection. -/
theorem set_selected_breaks_invariant :
    SelectionInvariant emptyDelegate ∧
      ¬ SelectionInvariant (set_selected emptyDelegate 0) := by
  constructor
  · constructor
    · simp [emptyDelegate, filtered_count]
    · intro i h
      simp [emptyDelegate] at h
  · rintro ⟨h1, h2⟩
    have h0 := h2 0 rfl
    simp [set_selected, emptyDelegate, filtered_count] at h0

/-- C6 as amended: every query recomputation establishes the invariant and
resets the selection to 0 exactly when the combined sequence is non-empty;
a stale background result preserves it; and an explicit `set_selected`
preserves it only when the caller passes an in-range index. -/
theorem selection_invariant_amended :
    (∀ env s, SelectionInvariant (filter_items env s) ∧
      ((filter_items env s).selected_index =
        if filtered_count (filter_items env s) = 0 then Option.none
        else some 0)) ∧
    (∀ env s query indices, SelectionInvariant s →
      SelectionInvariant (apply_filter_results env s query indices)) ∧
    (∀ s i, i < filtered_count s → SelectionInvariant (set_selected s i)) := by
  refine ⟨?_, ?_, ?_⟩
  · intro env s
    exact recompute_selection env s s.query (filter_items_sync env s.items s.query)
  · intro env s query indices hinv
    unfold apply_filter_results
    split_ifs with h
    · exact (recompute_selection env s query indices).1
    · exact hinv
  · intro s i hi
    constructor
    · constructor
      · intro h
        cases h
      · intro h
        exfalso
        have he : filtered_count (set_selected s i) = filtered_count s := rfl
        omega
    · intro j hj
      have : j = i := by
        have : some i = some j := hj
        cases this
        rfl
      rw [this]
      exact hi

/-- Witness for C6 as amended: the three parts applied at concrete inputs,
chaining the invariant produced by a query change into a stale apply. -/
theorem selection_invariant_amended_witness :
    (SelectionInvariant (filter_items emptyEnv emptyDelegate) ∧
      ((filter_items emptyEnv emptyDelegate).selected_index =
        if filtered_count (filter_items emptyEnv emptyDelegate) = 0 then
          Option.none
        else some 0)) ∧
    SelectionInvariant (apply_filter_results emptyEnv
      (filter_items emptyEnv emptyDelegate) (sl "x") []) ∧
    SelectionInvariant (set_selected sampleState 0) :=
  ⟨selection_invariant_amended.1 emptyEnv emptyDelegate,
   selection_invariant_amended.2.1 emptyEnv (filter_items emptyEnv emptyDelegate)
     (sl "x") [] (selection_invariant_amended.1 emptyEnv emptyDelegate).1,
   selection_invariant_amended.2.2 sampleState 0 (by decide)⟩

/-! ## C2: section buckets versus ranking order -/

/-- The matcher used by the C2 failing input: the skim matcher restricted
to exact name hits, which is its behaviour on the name "alpha" against the
query "alpha". -/
def bugEnv : Env :=
  ⟨fun n q => if n = q then some 1 else Option.none, fun _ => Option.none,
   fun _ => SearchDetection.none, [], false⟩

/-- A catalog holding one application and one action with the same name. -/
def bugCatalog : List ListItem :=
  [ListItem.application (sl "alpha"), ListItem.action (sl "alpha")]

/-- The composed view after typing "alpha" over that catalog. -/
def bugState : ItemListDelegate :=
  set_query bugEnv
    ⟨bugCatalog, [], ⟨0, 0, 0, 0⟩, Option.none, [], Option.none,
     Option.none, []⟩
    (sl "alpha")

/-- C2 fails on the code: in the composed view for the non-empty query
"alpha" the first section is Commands with one row, yet the item at that
row's global index is the Application — the ranker orders Applications
(priority 2) before Actions (priority 3) while the section mapper lays
Commands out before Applications. -/
theorem commands_section_holds_application :
    bugState.section_info.command_count = 1 ∧
      bugState.section_info.app_count = 1 ∧
      section_type_at bugState 0 = SectionType.commands ∧
      get_item_at bugState (section_row_to_global bugState 0 0) =
        some (ListItem.application (sl "alpha")) := by
  decide

end ZLaunch
